import Mathlib

/-!
Verification of the soupbintcp repository (SoupBinTCP framing and login
handshake) against its natural-language specification.

The Python source is shallowly embedded: byte strings become `List Nat`
(each element one byte value), Python's unbounded integers become `Nat`
or `Int` (Python subtraction can go negative, so `payload_length`,
computed as `packet_length - 1`, is an `Int`), and code that can raise an
exception returns `Except`.  Every definition mirrors the corresponding
function of the source tree (`src/soupbintcp/...`); theorems about the
claims follow after the definitions, together with their witnesses and
counterexamples.
-/

namespace Soupbintcp

/-- Wire values of the `PacketType` enum of `packets.py`
(`S`, `U`, `L`, `A`, `J`, `O`, `R`, `H`, `Z`, `+`). -/
inductive PacketType
  | SEQUENCED_DATA
  | UNSEQUENCED_DATA
  | LOGIN_REQUEST
  | LOGIN_ACCEPTED
  | LOGIN_REJECTED
  | LOGOUT_REQUEST
  | CLIENT_HEARTBEAT
  | SERVER_HEARTBEAT
  | END_OF_SESSION
  | DEBUG
deriving DecidableEq

/-- The single ASCII byte attached to each `PacketType` member in
`packets.py` (e.g. `SEQUENCED_DATA = b"S"`, i.e. byte 83). -/
def PacketType.value : PacketType → Nat
  | .SEQUENCED_DATA => 83
  | .UNSEQUENCED_DATA => 85
  | .LOGIN_REQUEST => 76
  | .LOGIN_ACCEPTED => 65
  | .LOGIN_REJECTED => 74
  | .LOGOUT_REQUEST => 79
  | .CLIENT_HEARTBEAT => 82
  | .SERVER_HEARTBEAT => 72
  | .END_OF_SESSION => 90
  | .DEBUG => 43

/-- The enum lookup `PacketType(b)` of Python: `some t` when byte `b` is
the wire value of member `t`, `none` when the lookup would raise
`ValueError`. -/
def PacketType.ofByte? (b : Nat) : Option PacketType :=
  if b = 83 then some .SEQUENCED_DATA
  else if b = 85 then some .UNSEQUENCED_DATA
  else if b = 76 then some .LOGIN_REQUEST
  else if b = 65 then some .LOGIN_ACCEPTED
  else if b = 74 then some .LOGIN_REJECTED
  else if b = 79 then some .LOGOUT_REQUEST
  else if b = 82 then some .CLIENT_HEARTBEAT
  else if b = 72 then some .SERVER_HEARTBEAT
  else if b = 90 then some .END_OF_SESSION
  else if b = 43 then some .DEBUG
  else none

/-- The `Packet` dataclass of `packets.py`: length field, type, payload. -/
structure Packet where
  length : Nat
  type : PacketType
  payload : List Nat
deriving DecidableEq

/-- `Header.size()` is 3: a 2-byte big-endian unsigned `packet_length`
followed by a 1-byte `packet_type`. -/
def headerSize : Nat := 3

/-- The `packet_length` field of `Header.from_buffer(buffer)`: big-endian
16-bit unsigned read from the first two bytes.  Call sites always check
`len(buffer) >= 3` first, so the defaults of `getD` are never used. -/
def headerLength (buf : List Nat) : Nat :=
  256 * buf.getD 0 0 + buf.getD 1 0

/-- The `packet_type` byte of `Header.from_buffer(buffer)` (third byte). -/
def headerType (buf : List Nat) : Nat :=
  buf.getD 2 0

/-- `Header.payload_length`, i.e. `packet_length - 1` with Python integer
arithmetic (it is `-1` when `packet_length = 0`). -/
def payloadLength (buf : List Nat) : Int :=
  (headerLength buf : Int) - 1

/-- `Stream.has_packet` of `stream.py`: `False` when fewer than 3 bytes
are buffered, otherwise `False` when `len(buffer) - 3 <
header.payload_length`, and `True` otherwise. -/
def hasPacket (buf : List Nat) : Bool :=
  if buf.length < headerSize then false
  else !decide ((buf.length : Int) - headerSize < payloadLength buf)

/-- `create_packet` of `packets.py`:
`Header(len(payload) + 1, packet_type.value).to_bytes() + payload`.
The header stores `len(payload) + 1` as a big-endian `c_uint16`
(hence the `% 65536`) followed by the type byte. -/
def create_packet (packet_type : PacketType) (payload : List Nat) : List Nat :=
  [(payload.length + 1) % 65536 / 256, (payload.length + 1) % 256,
   packet_type.value] ++ payload

/-- The `Stream` class of `stream.py`: a configured data type,
the internal `bytearray` buffer, and the `_processed` counter. -/
structure Stream where
  data_type : PacketType
  buffer : List Nat
  processed : Nat
deriving DecidableEq

/-- `Stream.feed(data)`: append `data` to the internal buffer. -/
def Stream.feed (s : Stream) (data : List Nat) : Stream :=
  { s with buffer := s.buffer ++ data }

/-- `Stream.clear()`: replace the internal buffer with a fresh empty
`bytearray`; `data_type` and `_processed` are not touched. -/
def Stream.clear (s : Stream) : Stream :=
  { s with buffer := [] }

/-- `Stream.get_packet()` of `stream.py` (without the optional `data`
argument, which merely performs a `feed` first).  When `has_packet`
holds, the header is decoded, `offset_to_next_packet = header_size +
header.payload_length` is computed with Python integer arithmetic,
`PacketType(header.packet_type)` is looked up (raising `ValueError`,
modelled as `Except.error ()`, when the byte is not an enum value),
`payload = buffer[header_size:offset_to_next_packet]`, `_processed` is
incremented iff the type equals the configured data type, and
`del buffer[:offset_to_next_packet]` drops the consumed bytes.
Otherwise `None` is returned and nothing changes. -/
def Stream.getPacket (s : Stream) : Except Unit (Option Packet × Stream) :=
  if hasPacket s.buffer then
    let offset_to_next_packet : Nat :=
      ((headerSize : Int) + payloadLength s.buffer).toNat
    match PacketType.ofByte? (headerType s.buffer) with
    | none => Except.error ()
    | some packet_type =>
        Except.ok (some
          { length := headerLength s.buffer
            type := packet_type
            payload := (s.buffer.drop headerSize).take
              (offset_to_next_packet - headerSize) },
          { data_type := s.data_type
            buffer := s.buffer.drop offset_to_next_packet
            processed :=
              if packet_type = s.data_type then s.processed + 1
              else s.processed })
  else Except.ok (none, s)

/-- Fuel-indexed unfolding of the `while True` loop of
`Stream.get_packets`: call `get_packet` until it returns `None`,
collecting the yielded packets.  `Stream.getPackets` below instantiates
the fuel with the buffer length, which always suffices because each
successful extraction removes at least two bytes. -/
def Stream.drainAux : Nat → Stream → Except Unit (List Packet × Stream)
  | 0, s => Except.ok ([], s)
  | fuel + 1, s =>
      match s.getPacket with
      | Except.error e => Except.error e
      | Except.ok (none, s') => Except.ok ([], s')
      | Except.ok (some p, s') =>
          match Stream.drainAux fuel s' with
          | Except.error e => Except.error e
          | Except.ok (ps, s'') => Except.ok (p :: ps, s'')

/-- `Stream.get_packets()` of `stream.py` (without the optional `data`
argument): drain the buffer, yielding every complete packet in order. -/
def Stream.getPackets (s : Stream) : Except Unit (List Packet × Stream) :=
  Stream.drainAux s.buffer.length s

/-- Feeding a sequence of chunks into a stream, draining with
`get_packets` after each `feed`, and concatenating everything yielded
(the observable packet sequence of the Frame Reassembler). -/
def Stream.runChunks (s : Stream) : List (List Nat) → Except Unit (List Packet × Stream)
  | [] => Except.ok ([], s)
  | c :: cs =>
      match (s.feed c).getPackets with
      | Except.error e => Except.error e
      | Except.ok (ps, s') =>
          match Stream.runChunks s' cs with
          | Except.error e => Except.error e
          | Except.ok (qs, s'') => Except.ok (ps ++ qs, s'')

/-- `Protocol.next_sequence_number` of `protocol.py`:
`self.sequence_number + self.received`, where `received` is the
stream's `processed` counter. -/
def nextSequenceNumber (sequence_number : Nat) (s : Stream) : Nat :=
  sequence_number + s.processed

/-- The space byte used by Python's `str.ljust`/`str.rjust` padding. -/
def spaceByte : Nat := 32

/-- The ten ASCII bytes Python's `str.strip()` removes: tab through
carriage return (9 to 13), the file/group/record/unit separators
(28 to 31), and space (32). -/
def isPySpace (b : Nat) : Bool :=
  b = 32 || (9 ≤ b && b ≤ 13) || (28 ≤ b && b ≤ 31)

/-- Python `s.ljust(w)`: pad on the right with spaces up to width `w`
(no truncation when `s` is longer). -/
def ljust (s : List Nat) (w : Nat) : List Nat :=
  s ++ List.replicate (w - s.length) spaceByte

/-- Python `s.rjust(w)`: pad on the left with spaces up to width `w`. -/
def rjust (s : List Nat) (w : Nat) : List Nat :=
  List.replicate (w - s.length) spaceByte ++ s

/-- Python `s.lstrip()`: drop leading whitespace. -/
def lstrip (s : List Nat) : List Nat :=
  s.dropWhile isPySpace

/-- Python `s.rstrip()`: drop trailing whitespace. -/
def rstrip (s : List Nat) : List Nat :=
  (s.reverse.dropWhile isPySpace).reverse

/-- Python `s.strip()`: drop whitespace at both ends. -/
def pyStrip (s : List Nat) : List Nat :=
  lstrip (rstrip s)

/-- Big-endian decimal digit bytes of `n`, fuel-indexed so that the
recursion is structural; `pyStr` instantiates the fuel with `n`, which
suffices since `n / 10 < n` for `n ≥ 1`. -/
def natDecimalAux : Nat → Nat → List Nat
  | 0, _ => []
  | fuel + 1, n =>
      if n = 0 then []
      else natDecimalAux fuel (n / 10) ++ [48 + n % 10]

/-- Python `str(n)` for a non-negative integer `n`: its decimal digits
in ASCII (`str(0)` is `"0"`). -/
def pyStr (n : Nat) : List Nat :=
  if n = 0 then [48] else natDecimalAux n n

/-- Value of a big-endian list of ASCII decimal digits. -/
def pyIntDigits (s : List Nat) : Nat :=
  s.foldl (fun a c => 10 * a + (c - 48)) 0

/-- Python `int(text)` on a non-negative decimal string: surrounding
whitespace is tolerated (stripped) before the digits are read.  This
total version is used only where the field is known to be a padded
digit string (as every encoder of this protocol produces); `pyInt?`
below models the `ValueError` raise on other text. -/
def pyInt (s : List Nat) : Nat :=
  pyIntDigits (pyStrip s)

/-- Fallible Python `int(text)` on this protocol's sequence-number
fields: strip the whitespace, then parse a non-empty run of ASCII
digits; any other remainder models the `ValueError` raise as `none`.
(CPython's `int()` additionally accepts a sign and underscore digit
grouping; no encoder of this protocol produces those forms, and no
theorem below relies on the `none` branch at them.) -/
def pyInt? (s : List Nat) : Option Nat :=
  if pyStrip s ≠ [] ∧ ∀ b ∈ pyStrip s, 48 ≤ b ∧ b ≤ 57 then
    some (pyIntDigits (pyStrip s))
  else none

/-- The `LoginRequest` dataclass of `packets.py`: four raw fixed-width
byte fields (6, 10, 10, 20 bytes). -/
structure LoginRequest where
  username : List Nat
  password : List Nat
  requested_session : List Nat
  requested_sequence_number : List Nat
deriving DecidableEq

/-- `LoginRequest.new` of `packets.py`: left-justify the username,
password and session to their field widths, render the sequence number
as right-justified decimal text. -/
def LoginRequest.new (username password requested_session : List Nat)
    (requested_sequence_number : Nat) : LoginRequest :=
  { username := ljust username 6
    password := ljust password 10
    requested_session := ljust requested_session 10
    requested_sequence_number := rjust (pyStr requested_sequence_number) 20 }

/-- The `LoginAccepted` dataclass of `packets.py`: raw 10-byte session
field and 20-byte sequence-number field. -/
structure LoginAccepted where
  session : List Nat
  sequence_number : List Nat
deriving DecidableEq

/-- `LoginAccepted.new` of `packets.py`. -/
def LoginAccepted.new (session : List Nat) (sequence_number : Nat) : LoginAccepted :=
  { session := ljust session 10
    sequence_number := rjust (pyStr sequence_number) 20 }

/-- `LoginAccepted.to_bytes()`: the two fixed-width fields concatenated
(30 bytes for well-formed fields). -/
def LoginAccepted.to_bytes (la : LoginAccepted) : List Nat :=
  la.session ++ la.sequence_number

/-- `LoginAccepted.from_buffer_copy(payload)`: split a 30-byte payload
into the 10-byte session field and the 20-byte sequence-number field. -/
def LoginAccepted.from_buffer_copy (payload : List Nat) : LoginAccepted :=
  { session := payload.take 10
    sequence_number := (payload.drop 10).take 20 }

/-- The `LoginRejectCode` enum of `errors.py`: `A` (not authorized) or
`S` (session not available). -/
inductive LoginRejectCode
  | NOT_AUTHORIZED
  | SESSION_NOT_AVAILABLE
deriving DecidableEq

/-- Wire byte of a `LoginRejectCode` member. -/
def LoginRejectCode.value : LoginRejectCode → Nat
  | .NOT_AUTHORIZED => 65
  | .SESSION_NOT_AVAILABLE => 83

/-- The enum lookup `LoginRejectCode(b)`: `none` models the `ValueError`
raised on a byte that is neither `A` nor `S`. -/
def LoginRejectCode.ofByte? (b : Nat) : Option LoginRejectCode :=
  if b = 65 then some .NOT_AUTHORIZED
  else if b = 83 then some .SESSION_NOT_AVAILABLE
  else none

/-- The login-relevant configuration and state of the `Server` class of
`server.py`: the configured credentials, and the `session` (initially
`""`) and `sequence_number` (initially `1`) fields. -/
structure ServerState where
  username : List Nat
  password : List Nat
  session : List Nat
  sequence_number : Nat
deriving DecidableEq

/-- `Server.authenticate` of `server.py`: `None` on success, otherwise
the reject reason (`NOT_AUTHORIZED` when username or password differ,
`SESSION_NOT_AVAILABLE` when the credentials match but the requested
session does not). -/
def Server.authenticate (sv : ServerState)
    (username password session : List Nat) : Option LoginRejectCode :=
  if sv.username = username ∧ sv.password = password then
    if sv.session = session then none
    else some LoginRejectCode.SESSION_NOT_AVAILABLE
  else some LoginRejectCode.NOT_AUTHORIZED

/-- `Server.on_login_request` of `server.py`, as the reply packet it
sends: the four fields of the decoded request are stripped (`.strip()`)
and the sequence number parsed with `int(...)` — which raises
`ValueError` on a non-numeric field, modelled as `Except.error ()`,
before any authentication or reply happens; then, on a `None` reject
reason, `accept(requested_session, requested_sequence_number)` sends a
`LOGIN_ACCEPTED` packet whose payload is
`LoginAccepted.new(requested_session, requested_sequence_number)`;
otherwise `reject(reason)` sends a `LOGIN_REJECTED` packet whose payload
is the one-byte reason code. -/
def Server.on_login_request (sv : ServerState) (req : LoginRequest) :
    Except Unit (PacketType × List Nat) :=
  let username := pyStrip req.username
  let password := pyStrip req.password
  let requested_session := pyStrip req.requested_session
  match pyInt? req.requested_sequence_number with
  | none => Except.error ()
  | some requested_sequence_number =>
      match Server.authenticate sv username password requested_session with
      | some reason => Except.ok (PacketType.LOGIN_REJECTED, [reason.value])
      | none =>
          Except.ok (PacketType.LOGIN_ACCEPTED,
           (LoginAccepted.new requested_session requested_sequence_number).to_bytes)

/-- The login-relevant state of the `Client` class of `client.py`:
the `session` (initially `""`) and `sequence_number` (initially `1`)
fields of `Protocol`, plus whether `_keep_alive_task` has been created
by `start_keep_alive` (initially `False`; `Client.start` leaves its
`start_keep_alive` call commented out). -/
structure ClientState where
  session : List Nat
  sequence_number : Nat
  keep_alive_started : Bool
deriving DecidableEq

/-- The ways `Client.login` can fail: `LoginRejectedError(code)` on a
`LOGIN_REJECTED` reply with a recognized code byte, or `ValueError`
(raised either by `LoginRejectCode(...)` on an unrecognized code byte or
explicitly on any other packet type). -/
inductive ClientError
  | loginRejected (code : LoginRejectCode)
  | valueError
deriving DecidableEq

/-- The reply handling of `Client.login` of `client.py`, as a function
of the single packet received after sending the login request: on
`LOGIN_ACCEPTED`, store the decoded session field (no stripping) and
`int(...)` of the sequence-number field; on `LOGIN_REJECTED`, raise
`LoginRejectedError` with the first payload byte (whose enum lookup can
itself raise `ValueError`); on any other type, raise `ValueError`.
`Client.start` calls `login` and nothing else — in particular
`keep_alive_started` is unchanged. -/
def Client.login_reply (st : ClientState) (reply : Packet) :
    Except ClientError ClientState :=
  if reply.type = PacketType.LOGIN_ACCEPTED then
    let login_accepted := LoginAccepted.from_buffer_copy reply.payload
    Except.ok { st with
      session := login_accepted.session
      sequence_number := pyInt login_accepted.sequence_number }
  else if reply.type = PacketType.LOGIN_REJECTED then
    match LoginRejectCode.ofByte? (reply.payload.getD 0 0) with
    | some code => Except.error (ClientError.loginRejected code)
    | none => Except.error ClientError.valueError
  else Except.error ClientError.valueError

/-! ### Basic facts about the packet-type table and the header -/

theorem PacketType.ofByte?_value (t : PacketType) :
    PacketType.ofByte? t.value = some t := by
  cases t <;> rfl

theorem hasPacket_iff (buf : List Nat) :
    hasPacket buf = true ↔
      3 ≤ buf.length ∧ payloadLength buf ≤ (buf.length : Int) - 3 := by
  unfold hasPacket headerSize
  split
  · simp only [Bool.false_eq_true, false_iff]
    omega
  · simp only [Bool.not_eq_eq_eq_not, Bool.not_true, decide_eq_false_iff_not,
      not_lt, Bool.not_eq_true', decide_eq_false_iff_not]
    constructor
    · intro h
      refine ⟨by omega, by simpa using h⟩
    · intro h
      simpa using h.2

theorem offset_toNat (buf : List Nat) :
    ((headerSize : Int) + payloadLength buf).toNat = headerLength buf + 2 := by
  unfold payloadLength headerSize
  omega

theorem hasPacket_le (buf : List Nat) (h : hasPacket buf = true) :
    3 ≤ buf.length ∧ headerLength buf + 2 ≤ buf.length ∧
      headerLength buf - 1 ≤ buf.length - 3 := by
  rw [hasPacket_iff] at h
  unfold payloadLength at h
  omega

/-! ### Characterizations of `Stream.getPacket` -/

theorem getPacket_of_not_hasPacket (s : Stream) (h : hasPacket s.buffer = false) :
    s.getPacket = Except.ok (none, s) := by
  unfold Stream.getPacket
  rw [h]
  simp

theorem getPacket_of_some (s : Stream) (t : PacketType)
    (hh : hasPacket s.buffer = true)
    (ht : PacketType.ofByte? (headerType s.buffer) = some t) :
    s.getPacket = Except.ok (some
      { length := headerLength s.buffer
        type := t
        payload := (s.buffer.drop 3).take (headerLength s.buffer - 1) },
      { data_type := s.data_type
        buffer := s.buffer.drop (headerLength s.buffer + 2)
        processed :=
          if t = s.data_type then s.processed + 1 else s.processed }) := by
  unfold Stream.getPacket
  rw [hh, ht]
  simp only [offset_toNat]
  have h3 : headerLength s.buffer + 2 - headerSize = headerLength s.buffer - 1 := by
    unfold headerSize; omega
  rw [h3]
  rfl

theorem getPacket_of_error (s : Stream)
    (hh : hasPacket s.buffer = true)
    (ht : PacketType.ofByte? (headerType s.buffer) = none) :
    s.getPacket = Except.error () := by
  unfold Stream.getPacket
  rw [hh, ht]
  simp

theorem getPacket_none_inv (s s' : Stream)
    (h : s.getPacket = Except.ok (none, s')) :
    s' = s ∧ hasPacket s.buffer = false := by
  by_cases hh : hasPacket s.buffer = true
  · cases ht : PacketType.ofByte? (headerType s.buffer) with
    | none => rw [getPacket_of_error s hh ht] at h; exact absurd h (by simp)
    | some t => rw [getPacket_of_some s t hh ht] at h; exact absurd h (by simp)
  · rw [getPacket_of_not_hasPacket s (by simpa using hh)] at h
    simp only [Except.ok.injEq, Prod.mk.injEq, true_and] at h
    exact ⟨h.symm, by simpa using hh⟩

theorem getPacket_some_inv (s : Stream) (p : Packet) (s' : Stream)
    (h : s.getPacket = Except.ok (some p, s')) :
    hasPacket s.buffer = true ∧
    PacketType.ofByte? (headerType s.buffer) = some p.type ∧
    p = { length := headerLength s.buffer
          type := p.type
          payload := (s.buffer.drop 3).take (headerLength s.buffer - 1) } ∧
    s' = { data_type := s.data_type
           buffer := s.buffer.drop (headerLength s.buffer + 2)
           processed :=
             if p.type = s.data_type then s.processed + 1 else s.processed } := by
  by_cases hh : hasPacket s.buffer = true
  · cases ht : PacketType.ofByte? (headerType s.buffer) with
    | none => rw [getPacket_of_error s hh ht] at h; exact absurd h (by simp)
    | some t =>
        rw [getPacket_of_some s t hh ht] at h
        simp only [Except.ok.injEq, Prod.mk.injEq, Option.some.injEq] at h
        obtain ⟨hp, hs⟩ := h
        have hpt : p.type = t := by rw [← hp]
        subst hpt
        exact ⟨hh, rfl, hp.symm, hs.symm⟩
  · rw [getPacket_of_not_hasPacket s (by simpa using hh)] at h
    exact absurd h (by simp)

theorem getPacket_some_shrink (s : Stream) (p : Packet) (s' : Stream)
    (h : s.getPacket = Except.ok (some p, s')) :
    s'.buffer.length + 2 ≤ s.buffer.length ∧ s'.data_type = s.data_type := by
  obtain ⟨hh, -, -, hs⟩ := getPacket_some_inv s p s' h
  obtain ⟨h3, -, -⟩ := hasPacket_le s.buffer hh
  subst hs
  refine ⟨?_, rfl⟩
  simp only [List.length_drop]
  omega

/-! ### The `get_packets` loop: fuel irrelevance and one-step unfoldings -/

theorem drainAux_nil (s : Stream) (h : s.buffer = []) (fuel : Nat) :
    Stream.drainAux fuel s = Except.ok ([], s) := by
  cases fuel with
  | zero => rfl
  | succ fuel =>
      have hempty : hasPacket s.buffer = false := by
        rw [h]; rfl
      unfold Stream.drainAux
      rw [getPacket_of_not_hasPacket s hempty]

theorem drainAux_congr : ∀ (f1 f2 : Nat) (s : Stream),
    s.buffer.length ≤ f1 → s.buffer.length ≤ f2 →
    Stream.drainAux f1 s = Stream.drainAux f2 s := by
  intro f1
  induction f1 with
  | zero =>
      intro f2 s h1 _
      have hb : s.buffer = [] := by
        cases hbuf : s.buffer with
        | nil => rfl
        | cons a l => rw [hbuf] at h1; simp at h1
      rw [drainAux_nil s hb, drainAux_nil s hb]
  | succ f1 ih =>
      intro f2 s h1 h2
      cases f2 with
      | zero =>
          have hb : s.buffer = [] := by
            cases hbuf : s.buffer with
            | nil => rfl
            | cons a l => rw [hbuf] at h2; simp at h2
          rw [drainAux_nil s hb, drainAux_nil s hb]
      | succ f2 =>
          unfold Stream.drainAux
          cases hg : s.getPacket with
          | error e => rfl
          | ok r =>
              obtain ⟨op, s1⟩ := r
              cases op with
              | none => rfl
              | some p =>
                  obtain ⟨hlen, -⟩ := getPacket_some_shrink s p s1 hg
                  dsimp only
                  rw [ih f2 s1 (by omega) (by omega)]

theorem getPackets_of_error (s : Stream) (e : Unit)
    (h : s.getPacket = Except.error e) :
    s.getPackets = Except.error e := by
  have h1 : s.getPackets = Stream.drainAux s.buffer.length s := rfl
  rw [h1]
  cases hl : s.buffer.length with
  | zero =>
      have hb : s.buffer = [] := List.length_eq_zero.mp hl
      rw [getPacket_of_not_hasPacket s (by rw [hb]; rfl)] at h
      exact absurd h (by simp)
  | succ k =>
      unfold Stream.drainAux
      rw [h]

theorem getPackets_of_none (s s' : Stream)
    (h : s.getPacket = Except.ok (none, s')) :
    s.getPackets = Except.ok ([], s') := by
  obtain ⟨hs, -⟩ := getPacket_none_inv s s' h
  have h1 : s.getPackets = Stream.drainAux s.buffer.length s := rfl
  rw [h1]
  cases hl : s.buffer.length with
  | zero =>
      show Except.ok ([], s) = Except.ok ([], s')
      rw [hs]
  | succ k =>
      unfold Stream.drainAux
      rw [h]

theorem getPackets_of_some (s : Stream) (p : Packet) (s' : Stream)
    (h : s.getPacket = Except.ok (some p, s')) :
    s.getPackets =
      match s'.getPackets with
      | Except.error e => Except.error e
      | Except.ok (ps, s'') => Except.ok (p :: ps, s'') := by
  obtain ⟨hlen, -⟩ := getPacket_some_shrink s p s' h
  have h1 : s.getPackets = Stream.drainAux s.buffer.length s := rfl
  rw [h1]
  cases hl : s.buffer.length with
  | zero =>
      have hb : s.buffer = [] := List.length_eq_zero.mp hl
      rw [getPacket_of_not_hasPacket s (by rw [hb]; rfl)] at h
      exact absurd h (by simp)
  | succ k =>
      unfold Stream.drainAux
      rw [h]
      dsimp only
      rw [drainAux_congr k s'.buffer.length s' (by omega) (by omega)]
      rfl

theorem getPackets_ok_inv : ∀ (n : Nat) (s : Stream) (ps : List Packet) (s' : Stream),
    s.buffer.length ≤ n → s.getPackets = Except.ok (ps, s') →
    hasPacket s'.buffer = false ∧ s'.data_type = s.data_type := by
  intro n
  induction n with
  | zero =>
      intro s ps s' hn h
      have hb : s.buffer = [] := by
        cases hbuf : s.buffer with
        | nil => rfl
        | cons a l => rw [hbuf] at hn; simp at hn
      have hgp : s.getPackets = Except.ok ([], s) := drainAux_nil s hb _
      rw [hgp] at h
      simp only [Except.ok.injEq, Prod.mk.injEq] at h
      rw [← h.2, hb]
      exact ⟨rfl, rfl⟩
  | succ n ih =>
      intro s ps s' hn h
      cases hg : s.getPacket with
      | error e =>
          rw [getPackets_of_error s e hg] at h
          exact absurd h (by simp)
      | ok r =>
          obtain ⟨op, s1⟩ := r
          cases op with
          | none =>
              obtain ⟨hs1, hfalse⟩ := getPacket_none_inv s s1 hg
              rw [getPackets_of_none s s1 hg] at h
              simp only [Except.ok.injEq, Prod.mk.injEq] at h
              rw [← h.2, hs1]
              exact ⟨hfalse, rfl⟩
          | some p =>
              obtain ⟨hlen, hdt⟩ := getPacket_some_shrink s p s1 hg
              rw [getPackets_of_some s p s1 hg] at h
              cases hrec : s1.getPackets with
              | error e => rw [hrec] at h; exact absurd h (by simp)
              | ok r1 =>
                  obtain ⟨qs, s2⟩ := r1
                  rw [hrec] at h
                  simp only [Except.ok.injEq, Prod.mk.injEq] at h
                  obtain ⟨ih1, ih2⟩ := ih s1 qs s2 (by omega) hrec
                  rw [← h.2]
                  exact ⟨ih1, by rw [ih2, hdt]⟩

/-! ### Appending more bytes does not disturb the packet at the front -/

theorem headerLength_append (b d : List Nat) (h : 3 ≤ b.length) :
    headerLength (b ++ d) = headerLength b := by
  unfold headerLength
  rw [List.getD_append b d 0 0 (by omega), List.getD_append b d 0 1 (by omega)]

theorem headerType_append (b d : List Nat) (h : 3 ≤ b.length) :
    headerType (b ++ d) = headerType b := by
  unfold headerType
  rw [List.getD_append b d 0 2 (by omega)]

theorem payloadLength_append (b d : List Nat) (h : 3 ≤ b.length) :
    payloadLength (b ++ d) = payloadLength b := by
  unfold payloadLength
  rw [headerLength_append b d h]

theorem hasPacket_append (b d : List Nat) (h : hasPacket b = true) :
    hasPacket (b ++ d) = true := by
  rw [hasPacket_iff] at h ⊢
  rw [payloadLength_append b d h.1]
  simp only [List.length_append]
  obtain ⟨h1, h2⟩ := h
  refine ⟨by omega, by omega⟩

theorem getPacket_append_some (dt : PacketType) (b d : List Nat) (n : Nat)
    (t : PacketType) (hh : hasPacket b = true)
    (ht : PacketType.ofByte? (headerType b) = some t) :
    Stream.getPacket ⟨dt, b ++ d, n⟩ = Except.ok (some
      { length := headerLength b
        type := t
        payload := (b.drop 3).take (headerLength b - 1) },
      { data_type := dt
        buffer := b.drop (headerLength b + 2) ++ d
        processed := if t = dt then n + 1 else n }) := by
  obtain ⟨h3, hoff, hpl⟩ := hasPacket_le b hh
  have happ := getPacket_of_some ⟨dt, b ++ d, n⟩ t
    (by simpa using hasPacket_append b d hh)
    (by simpa [headerType_append b d h3] using ht)
  simp only at happ
  rw [happ]
  rw [headerLength_append b d h3]
  have hdrop3 : (b ++ d).drop 3 = b.drop 3 ++ d :=
    List.drop_append_of_le_length (by omega)
  have htake : (b.drop 3 ++ d).take (headerLength b - 1) =
      (b.drop 3).take (headerLength b - 1) :=
    List.take_append_of_le_length (by simp only [List.length_drop]; omega)
  have hdropoff : (b ++ d).drop (headerLength b + 2) =
      b.drop (headerLength b + 2) ++ d :=
    List.drop_append_of_le_length (by omega)
  rw [hdrop3, htake, hdropoff]

theorem getPacket_append_error (dt : PacketType) (b d : List Nat) (n : Nat)
    (hh : hasPacket b = true)
    (ht : PacketType.ofByte? (headerType b) = none) :
    Stream.getPacket ⟨dt, b ++ d, n⟩ = Except.error () := by
  obtain ⟨h3, -, -⟩ := hasPacket_le b hh
  exact getPacket_of_error ⟨dt, b ++ d, n⟩
    (by simpa using hasPacket_append b d hh)
    (by simpa [headerType_append b d h3] using ht)

/-- Compositionality of draining: draining `b ++ d` produces the packets
of draining `b` followed by the packets of draining the residue of `b`
with `d` appended. -/
theorem getPackets_append : ∀ (k : Nat) (b : List Nat), b.length ≤ k →
    ∀ (dt : PacketType) (n : Nat) (d : List Nat),
    Stream.getPackets ⟨dt, b ++ d, n⟩ =
      match Stream.getPackets ⟨dt, b, n⟩ with
      | Except.error e => Except.error e
      | Except.ok (ps, s') =>
          match Stream.getPackets ⟨dt, s'.buffer ++ d, s'.processed⟩ with
          | Except.error e => Except.error e
          | Except.ok (qs, s'') => Except.ok (ps ++ qs, s'') := by
  intro k
  induction k with
  | zero =>
      intro b hb dt n d
      have hnil : b = [] := by
        cases hbuf : b with
        | nil => rfl
        | cons a l => rw [hbuf] at hb; simp at hb
      subst hnil
      have h0 : Stream.getPackets ⟨dt, [], n⟩ = Except.ok ([], ⟨dt, [], n⟩) :=
        drainAux_nil _ rfl _
      rw [h0]
      dsimp only
      simp only [List.nil_append]
      cases hrest : Stream.getPackets ⟨dt, d, n⟩ with
      | error e => rfl
      | ok r => obtain ⟨qs, s''⟩ := r; simp
  | succ k ih =>
      intro b hb dt n d
      by_cases hh : hasPacket b = true
      · cases ht : PacketType.ofByte? (headerType b) with
        | none =>
            rw [getPackets_of_error ⟨dt, b ++ d, n⟩ () (getPacket_append_error dt b d n hh ht)]
            rw [getPackets_of_error ⟨dt, b, n⟩ () (getPacket_of_error ⟨dt, b, n⟩ (by simpa using hh) (by simpa using ht))]
        | some t =>
            obtain ⟨h3, hoff, hpl⟩ := hasPacket_le b hh
            have hstep := getPacket_of_some ⟨dt, b, n⟩ t (by simpa using hh) (by simpa using ht)
            simp only at hstep
            rw [getPackets_of_some _ _ _ hstep]
            have hstepd := getPacket_append_some dt b d n t hh ht
            rw [getPackets_of_some _ _ _ hstepd]
            have hlen : (b.drop (headerLength b + 2)).length ≤ k := by
              simp only [List.length_drop]; omega
            rw [ih (b.drop (headerLength b + 2)) hlen dt (if t = dt then n + 1 else n) d]
            cases h1 : Stream.getPackets ⟨dt, b.drop (headerLength b + 2), if t = dt then n + 1 else n⟩ with
            | error e => rfl
            | ok r1 =>
                obtain ⟨ps1, s1⟩ := r1
                dsimp only
                cases h2 : Stream.getPackets ⟨dt, s1.buffer ++ d, s1.processed⟩ with
                | error e => rfl
                | ok r2 => obtain ⟨qs, s''⟩ := r2; simp
      · have hh' : hasPacket b = false := by simpa using hh
        rw [getPackets_of_none ⟨dt, b, n⟩ _ (getPacket_of_not_hasPacket ⟨dt, b, n⟩ (by simpa using hh'))]
        dsimp only
        cases hrest : Stream.getPackets ⟨dt, b ++ d, n⟩ with
        | error e => rfl
        | ok r => obtain ⟨qs, s''⟩ := r; simp

/-- Chunked feeding with a drain after every feed equals a single feed
of the concatenation followed by one drain, provided the starting buffer
holds no complete packet (true of a fresh stream and of every residue a
drain leaves behind). -/
theorem runChunks_eq_getPackets : ∀ (cs : List (List Nat)) (s : Stream),
    hasPacket s.buffer = false →
    s.runChunks cs = (s.feed cs.flatten).getPackets := by
  intro cs
  induction cs with
  | nil =>
      intro s h
      have hfeed : s.feed [] = s := by
        unfold Stream.feed
        simp
      rw [List.flatten_nil, hfeed]
      rw [getPackets_of_none s s (getPacket_of_not_hasPacket s h)]
      rfl
  | cons c cs ih =>
      intro s h
      show (match (s.feed c).getPackets with
            | Except.error e => Except.error e
            | Except.ok (ps, s') =>
                match Stream.runChunks s' cs with
                | Except.error e => Except.error e
                | Except.ok (qs, s'') => Except.ok (ps ++ qs, s'')) = _
      have hflat : (c :: cs).flatten = c ++ cs.flatten := by simp
      have hbuf : (s.feed (c :: cs).flatten).buffer = (s.buffer ++ c) ++ cs.flatten := by
        unfold Stream.feed
        rw [hflat, List.append_assoc]
      have hfeedeq : s.feed (c :: cs).flatten =
          (⟨s.data_type, (s.buffer ++ c) ++ cs.flatten, s.processed⟩ : Stream) := by
        unfold Stream.feed
        rw [hflat, List.append_assoc]
      rw [hfeedeq]
      rw [getPackets_append (s.buffer ++ c).length (s.buffer ++ c) le_rfl
        s.data_type s.processed cs.flatten]
      have hfc : (s.feed c) = (⟨s.data_type, s.buffer ++ c, s.processed⟩ : Stream) := rfl
      rw [hfc]
      cases h1 : Stream.getPackets ⟨s.data_type, s.buffer ++ c, s.processed⟩ with
      | error e => rfl
      | ok r =>
          obtain ⟨ps, s1⟩ := r
          obtain ⟨dt1, buf1, n1⟩ := s1
          dsimp only
          obtain ⟨hnope, hdt⟩ := getPackets_ok_inv _ _ _ _ le_rfl h1
          simp only at hdt hnope
          subst hdt
          have hrc : Stream.runChunks ⟨s.data_type, buf1, n1⟩ cs =
              ((⟨s.data_type, buf1, n1⟩ : Stream).feed cs.flatten).getPackets :=
            ih _ hnope
          have hfeed1 : (⟨s.data_type, buf1, n1⟩ : Stream).feed cs.flatten =
              (⟨s.data_type, buf1 ++ cs.flatten, n1⟩ : Stream) := rfl
          rw [hrc, hfeed1]

/-! ### Parsing an encoded packet stream -/

theorem headerLength_create (t : PacketType) (payload rest : List Nat)
    (h : payload.length + 1 < 65536) :
    headerLength (create_packet t payload ++ rest) = payload.length + 1 := by
  unfold create_packet headerLength
  simp only [List.cons_append, List.nil_append, List.getD_cons_zero, List.getD_cons_succ]
  rw [Nat.mod_eq_of_lt h]
  exact Nat.div_add_mod (payload.length + 1) 256

theorem headerType_create (t : PacketType) (payload rest : List Nat) :
    headerType (create_packet t payload ++ rest) = t.value := by
  unfold create_packet headerType
  simp

theorem hasPacket_create (t : PacketType) (payload rest : List Nat)
    (h : payload.length + 1 < 65536) :
    hasPacket (create_packet t payload ++ rest) = true := by
  rw [hasPacket_iff]
  unfold payloadLength
  rw [headerLength_create t payload rest h]
  unfold create_packet
  simp only [List.length_append, List.cons_append, List.nil_append, List.length_cons]
  constructor
  · omega
  · push_cast
    omega

theorem getPackets_create (dt t : PacketType) (payload rest : List Nat) (n : Nat)
    (h : payload.length + 1 < 65536) :
    Stream.getPackets ⟨dt, create_packet t payload ++ rest, n⟩ =
      match Stream.getPackets ⟨dt, rest, if t = dt then n + 1 else n⟩ with
      | Except.error e => Except.error e
      | Except.ok (ps, s') =>
          Except.ok (⟨payload.length + 1, t, payload⟩ :: ps, s') := by
  have hstep := getPacket_of_some ⟨dt, create_packet t payload ++ rest, n⟩ t
    (by simpa using hasPacket_create t payload rest h)
    (by simp only [headerType_create t payload rest, PacketType.ofByte?_value])
  simp only [headerLength_create t payload rest h] at hstep
  have hpayload : ((create_packet t payload ++ rest).drop 3).take (payload.length + 1 - 1)
      = payload := by
    unfold create_packet
    simp only [List.cons_append, List.nil_append, List.drop_succ_cons, List.drop_zero,
      Nat.add_sub_cancel]
    exact List.take_left payload rest
  have hdrop : (create_packet t payload ++ rest).drop (payload.length + 1 + 2) = rest := by
    unfold create_packet
    have hlen : payload.length + 1 + 2 =
        ([(payload.length + 1) % 65536 / 256, (payload.length + 1) % 256,
          t.value] ++ payload).length := by
      simp only [List.length_append, List.length_cons, List.length_nil]
      omega
    rw [hlen, List.drop_left]
  rw [hpayload, hdrop] at hstep
  rw [getPackets_of_some _ _ _ hstep]

/-- Draining a buffer that is exactly a concatenation of encoded packets
yields precisely those packets, leaves the buffer empty, and adds to the
processed counter one count per packet of the configured data type. -/
theorem getPackets_encoded : ∀ (ps : List (PacketType × List Nat)) (dt : PacketType) (n : Nat),
    (∀ q ∈ ps, q.2.length + 1 < 65536) →
    Stream.getPackets ⟨dt, (ps.map fun q => create_packet q.1 q.2).flatten, n⟩ =
      Except.ok (ps.map fun q => ⟨q.2.length + 1, q.1, q.2⟩,
        ⟨dt, [], n + ps.countP fun q => q.1 == dt⟩) := by
  intro ps
  induction ps with
  | nil =>
      intro dt n _
      simp only [List.map_nil, List.flatten_nil, List.countP_nil, Nat.add_zero]
      exact drainAux_nil _ rfl _
  | cons q ps ih =>
      intro dt n hwf
      obtain ⟨t, payload⟩ := q
      simp only [List.map_cons, List.flatten_cons]
      rw [getPackets_create dt t payload _ n (hwf (t, payload) (by simp))]
      rw [ih dt (if t = dt then n + 1 else n)
        (fun q hq => hwf q (List.mem_cons_of_mem _ hq))]
      dsimp only
      congr 1
      refine Prod.ext rfl ?_
      simp only
      congr 1
      rw [List.countP_cons]
      by_cases hteq : t = dt
      · simp only [hteq, beq_self_eq_true, if_true]
        omega
      · have : (t == dt) = false := by
          simpa using hteq
        simp [hteq, this]

/-! ### Decimal rendering and parsing -/

theorem foldl_natDecimalAux : ∀ (fuel n a : Nat), n ≤ fuel →
    List.foldl (fun a c => 10 * a + (c - 48)) a (natDecimalAux fuel n) =
      a * 10 ^ (natDecimalAux fuel n).length + n := by
  intro fuel
  induction fuel with
  | zero =>
      intro n a hn
      have : n = 0 := by omega
      subst this
      simp [natDecimalAux]
  | succ fuel ih =>
      intro n a hn
      by_cases h0 : n = 0
      · subst h0
        simp [natDecimalAux]
      · have hstep : natDecimalAux (fuel + 1) n =
            natDecimalAux fuel (n / 10) ++ [48 + n % 10] := by
          simp only [natDecimalAux]
          rw [if_neg h0]
        rw [hstep]
        rw [List.foldl_append]
        have hdiv : n / 10 ≤ fuel := by
          have := Nat.div_lt_self (Nat.pos_of_ne_zero h0) (by omega : 1 < 10)
          omega
        rw [ih (n / 10) a hdiv]
        simp only [List.foldl_cons, List.foldl_nil, List.length_append,
          List.length_cons, List.length_nil]
        have hmod : 48 + n % 10 - 48 = n % 10 := by omega
        rw [hmod]
        have hpow : a * 10 ^ ((natDecimalAux fuel (n / 10)).length + (0 + 1)) =
            (a * 10 ^ (natDecimalAux fuel (n / 10)).length) * 10 := by
          ring
        rw [hpow]
        have := Nat.div_add_mod n 10
        omega

theorem pyIntDigits_pyStr (n : Nat) : pyIntDigits (pyStr n) = n := by
  unfold pyStr pyIntDigits
  by_cases h0 : n = 0
  · subst h0; rfl
  · rw [if_neg h0]
    rw [foldl_natDecimalAux n n 0 le_rfl]
    simp

theorem natDecimalAux_mem : ∀ (fuel n b : Nat), b ∈ natDecimalAux fuel n →
    48 ≤ b ∧ b ≤ 57 := by
  intro fuel
  induction fuel with
  | zero => intro n b hb; simp [natDecimalAux] at hb
  | succ fuel ih =>
      intro n b hb
      unfold natDecimalAux at hb
      by_cases h0 : n = 0
      · rw [if_pos h0] at hb; simp at hb
      · rw [if_neg h0] at hb
        rw [List.mem_append] at hb
        cases hb with
        | inl h => exact ih (n / 10) b h
        | inr h =>
            simp only [List.mem_singleton] at h
            have := Nat.mod_lt n (by omega : 0 < 10)
            omega

theorem pyStr_mem (n b : Nat) (hb : b ∈ pyStr n) : 48 ≤ b ∧ b ≤ 57 := by
  unfold pyStr at hb
  by_cases h0 : n = 0
  · rw [if_pos h0] at hb; simp at hb; omega
  · rw [if_neg h0] at hb
    exact natDecimalAux_mem n n b hb

theorem pyStr_ne_nil (n : Nat) : pyStr n ≠ [] := by
  unfold pyStr
  by_cases h0 : n = 0
  · rw [if_pos h0]; simp
  · rw [if_neg h0]
    cases hn : n with
    | zero => exact absurd hn h0
    | succ m =>
        unfold natDecimalAux
        rw [if_neg (by omega : ¬m + 1 = 0)]
        simp

theorem digit_not_space (b : Nat) (h48 : 48 ≤ b) (h57 : b ≤ 57) :
    isPySpace b = false := by
  unfold isPySpace
  simp only [Bool.or_eq_false_iff, Bool.and_eq_false_iff,
    decide_eq_false_iff_not, not_le]
  omega

/-! ### Stripping padded fields -/

theorem dropWhile_replicate_space (k : Nat) (l : List Nat) :
    (List.replicate k spaceByte ++ l).dropWhile isPySpace = l.dropWhile isPySpace := by
  induction k with
  | zero => simp
  | succ k ih =>
      rw [List.replicate_succ, List.cons_append, List.dropWhile_cons]
      have : isPySpace spaceByte = true := by decide
      rw [this]
      simpa using ih

theorem dropWhile_of_head (l : List Nat)
    (h : l = [] ∨ isPySpace (l.headD 0) = false) :
    l.dropWhile isPySpace = l := by
  cases l with
  | nil => rfl
  | cons a l =>
      cases h with
      | inl h => exact absurd h (by simp)
      | inr h =>
          simp only [List.headD_cons] at h
          rw [List.dropWhile_cons, h]
          simp

theorem rstrip_ljust (u : List Nat) (w : Nat) :
    rstrip (ljust u w) = rstrip u := by
  unfold rstrip ljust
  rw [List.reverse_append, List.reverse_replicate]
  rw [dropWhile_replicate_space]

theorem pyStrip_ljust (u : List Nat) (w : Nat) :
    pyStrip (ljust u w) = pyStrip u := by
  unfold pyStrip
  rw [rstrip_ljust]

theorem pyStrip_of_stripped (u : List Nat)
    (hl : lstrip u = u) (hr : rstrip u = u) : pyStrip u = u := by
  unfold pyStrip
  rw [hr, hl]

theorem rstrip_rjust_pyStr (n w : Nat) :
    rstrip (rjust (pyStr n) w) = rjust (pyStr n) w := by
  unfold rstrip rjust
  rw [List.reverse_append, List.reverse_replicate]
  have hne : (pyStr n).reverse ≠ [] := by
    simpa using pyStr_ne_nil n
  have hhead : isPySpace (((pyStr n).reverse ++
      List.replicate (w - (pyStr n).length) spaceByte).headD 0) = false := by
    cases hrev : (pyStr n).reverse with
    | nil => exact absurd hrev hne
    | cons a l =>
        simp only [List.cons_append, List.headD_cons]
        have ha : a ∈ pyStr n := by
          have : a ∈ (pyStr n).reverse := by rw [hrev]; simp
          simpa using this
        obtain ⟨h48, h57⟩ := pyStr_mem n a ha
        exact digit_not_space a h48 h57
  rw [dropWhile_of_head _ (Or.inr hhead)]
  rw [List.reverse_append, List.reverse_reverse, List.reverse_replicate]

theorem pyStrip_rjust_pyStr (n w : Nat) :
    pyStrip (rjust (pyStr n) w) = pyStr n := by
  unfold pyStrip
  rw [rstrip_rjust_pyStr]
  unfold lstrip rjust
  rw [dropWhile_replicate_space]
  apply dropWhile_of_head
  right
  cases hs : pyStr n with
  | nil => exact absurd hs (pyStr_ne_nil n)
  | cons a l =>
      simp only [List.headD_cons]
      have ha : a ∈ pyStr n := by rw [hs]; simp
      obtain ⟨h48, h57⟩ := pyStr_mem n a ha
      exact digit_not_space a h48 h57

theorem pyInt_rjust_pyStr (n w : Nat) : pyInt (rjust (pyStr n) w) = n := by
  unfold pyInt
  rw [pyStrip_rjust_pyStr, pyIntDigits_pyStr]

theorem ljust_length (u : List Nat) (w : Nat) (h : u.length ≤ w) :
    (ljust u w).length = w := by
  unfold ljust
  simp only [List.length_append, List.length_replicate]
  omega

theorem rjust_length (u : List Nat) (w : Nat) (h : u.length ≤ w) :
    (rjust u w).length = w := by
  unfold rjust
  simp only [List.length_append, List.length_replicate]
  omega

/-! ### Claim theorems -/

/-- C1: Fragmentation transparency of the Frame Reassembler.  For every
byte sequence that is the concatenation of well-formed packets (each a
`create_packet` encoding whose `packet_length` fits `c_uint16`), and for
every way of splitting it into chunks, feeding the chunks one by one
into a fresh `Stream` and draining with `get_packets` after each feed
yields exactly the same packet sequence as feeding the whole sequence in
a single `feed` call and draining once — namely the encoded packets, in
order, with the processed counter counting the data-type packets. -/
theorem fragmentation_transparency
    (dt : PacketType) (cs : List (List Nat)) (ps : List (PacketType × List Nat))
    (hwf : ∀ q ∈ ps, q.2.length + 1 < 65536)
    (hsplit : cs.flatten = (ps.map fun q => create_packet q.1 q.2).flatten) :
    Stream.runChunks ⟨dt, [], 0⟩ cs = Stream.runChunks ⟨dt, [], 0⟩ [cs.flatten] ∧
    Stream.runChunks ⟨dt, [], 0⟩ cs =
      Except.ok (ps.map fun q => ⟨q.2.length + 1, q.1, q.2⟩,
        ⟨dt, [], ps.countP fun q => q.1 == dt⟩) := by
  have hfresh : hasPacket (⟨dt, [], 0⟩ : Stream).buffer = false := rfl
  have h1 : Stream.runChunks ⟨dt, [], 0⟩ cs =
      ((⟨dt, [], 0⟩ : Stream).feed cs.flatten).getPackets :=
    runChunks_eq_getPackets cs ⟨dt, [], 0⟩ hfresh
  have h2 : Stream.runChunks ⟨dt, [], 0⟩ [cs.flatten] =
      ((⟨dt, [], 0⟩ : Stream).feed [cs.flatten].flatten).getPackets :=
    runChunks_eq_getPackets [cs.flatten] ⟨dt, [], 0⟩ hfresh
  have hsingle : ([cs.flatten] : List (List Nat)).flatten = cs.flatten := by simp
  have hfeed : (⟨dt, [], 0⟩ : Stream).feed cs.flatten =
      (⟨dt, cs.flatten, 0⟩ : Stream) := by
    unfold Stream.feed
    simp
  have hok : ((⟨dt, [], 0⟩ : Stream).feed cs.flatten).getPackets =
      Except.ok (ps.map fun q => ⟨q.2.length + 1, q.1, q.2⟩,
        ⟨dt, [], ps.countP fun q => q.1 == dt⟩) := by
    rw [hfeed, hsplit]
    have := getPackets_encoded ps dt 0 hwf
    simpa using this
  refine ⟨?_, by rw [h1, hok]⟩
  rw [h1, h2, hsingle]

/-- Witness for C1 at a concrete instance: a heartbeat packet and a
one-byte sequenced-data packet, split at offsets 2 and 5. -/
theorem fragmentation_transparency_witness :
    Stream.runChunks ⟨PacketType.SEQUENCED_DATA, [], 0⟩ [[0, 1], [72, 0, 2], [83, 65]] =
      Stream.runChunks ⟨PacketType.SEQUENCED_DATA, [], 0⟩ [[0, 1, 72, 0, 2, 83, 65]] ∧
    Stream.runChunks ⟨PacketType.SEQUENCED_DATA, [], 0⟩ [[0, 1], [72, 0, 2], [83, 65]] =
      Except.ok ([⟨1, PacketType.SERVER_HEARTBEAT, []⟩,
        ⟨2, PacketType.SEQUENCED_DATA, [65]⟩],
        ⟨PacketType.SEQUENCED_DATA, [], 1⟩) := by
  have h := fragmentation_transparency PacketType.SEQUENCED_DATA
    [[0, 1], [72, 0, 2], [83, 65]]
    [(PacketType.SERVER_HEARTBEAT, []), (PacketType.SEQUENCED_DATA, [65])]
    (by decide) rfl
  exact h

/-- C2 (amended): on every stream state whose front packet carries a
recognized type byte, `get_packet` returns the decoded packet — its
payload is the next `payload_length` bytes after the 3-byte header —
removes exactly `3 + payload_length` bytes from the front of the buffer,
and increments the processed counter iff the type equals the configured
data type; when no complete packet is available it returns `None` with
the state unchanged.  (The amendment: the original claim also covers a
complete packet with an unrecognized type byte, where `get_packet`
raises instead of returning — see the counterexample.) -/
theorem get_packet_functional (s : Stream) :
    (hasPacket s.buffer = false → s.getPacket = Except.ok (none, s)) ∧
    (∀ t : PacketType, PacketType.ofByte? (headerType s.buffer) = some t →
      hasPacket s.buffer = true →
      s.getPacket = Except.ok (some
        { length := headerLength s.buffer
          type := t
          payload := (s.buffer.drop 3).take (payloadLength s.buffer).toNat },
        { data_type := s.data_type
          buffer := s.buffer.drop ((3 + payloadLength s.buffer).toNat)
          processed := if t = s.data_type then s.processed + 1 else s.processed })) := by
  constructor
  · intro h
    exact getPacket_of_not_hasPacket s h
  · intro t ht hh
    have h1 : (payloadLength s.buffer).toNat = headerLength s.buffer - 1 := by
      unfold payloadLength
      omega
    have h2 : ((3 + payloadLength s.buffer : Int)).toNat = headerLength s.buffer + 2 := by
      unfold payloadLength
      omega
    rw [h1, h2]
    exact getPacket_of_some s t hh ht

/-- Witness for C2 on a complete one-byte sequenced-data packet. -/
theorem get_packet_functional_witness :
    (⟨PacketType.SEQUENCED_DATA, [0, 2, 83, 65], 0⟩ : Stream).getPacket =
      Except.ok (some ⟨2, PacketType.SEQUENCED_DATA, [65]⟩,
        ⟨PacketType.SEQUENCED_DATA, [], 1⟩) := by
  have h := (get_packet_functional ⟨PacketType.SEQUENCED_DATA, [0, 2, 83, 65], 0⟩).2
    PacketType.SEQUENCED_DATA rfl rfl
  exact h

/-- Counterexample to C2 as stated: the buffer holds a complete packet
(`has_packet` is true) whose type byte `88` (`X`) is not a member of
the `PacketType` enumeration; `get_packet` raises `ValueError` instead
of returning a `Packet`. -/
theorem get_packet_functional_cex :
    hasPacket [0, 1, 88] = true ∧
    (⟨PacketType.SEQUENCED_DATA, [0, 1, 88], 0⟩ : Stream).getPacket =
      Except.error () :=
  ⟨rfl, rfl⟩

/-- C5: `has_packet` is true iff the buffer holds at least 3 bytes and
the bytes beyond the first 3 are at least the declared `payload_length`;
in particular a full encoded packet missing its final byte yields no
packet, and the complete encoding yields exactly that one packet. -/
theorem has_packet_iff_complete (buf : List Nat) (dt t : PacketType)
    (payload : List Nat) (h1 : payload ≠ []) (h2 : payload.length + 1 < 65536) :
    (hasPacket buf = true ↔
      3 ≤ buf.length ∧ payloadLength buf ≤ (buf.length : Int) - 3) ∧
    hasPacket (create_packet t payload).dropLast = false ∧
    Stream.getPackets ⟨dt, create_packet t payload, 0⟩ =
      Except.ok ([⟨payload.length + 1, t, payload⟩],
        ⟨dt, [], if t = dt then 1 else 0⟩) := by
  refine ⟨hasPacket_iff buf, ?_, ?_⟩
  · have hdl : (create_packet t payload).dropLast =
        [(payload.length + 1) % 65536 / 256, (payload.length + 1) % 256,
         t.value] ++ payload.dropLast := by
      unfold create_packet
      exact List.dropLast_append_of_ne_nil _ h1
    have hlen : payload.dropLast.length = payload.length - 1 :=
      List.length_dropLast payload
    have hpos : 1 ≤ payload.length := by
      cases hp : payload with
      | nil => exact absurd hp h1
      | cons a l => simp [hp]
    have hhl : headerLength ((create_packet t payload).dropLast) = payload.length + 1 := by
      rw [hdl]
      unfold headerLength
      simp only [List.cons_append, List.nil_append, List.getD_cons_zero,
        List.getD_cons_succ]
      rw [Nat.mod_eq_of_lt h2]
      exact Nat.div_add_mod (payload.length + 1) 256
    by_contra hcon
    have htrue : hasPacket ((create_packet t payload).dropLast) = true := by
      cases hb : hasPacket ((create_packet t payload).dropLast) with
      | false => exact absurd hb hcon
      | true => rfl
    rw [hasPacket_iff] at htrue
    unfold payloadLength at htrue
    rw [hhl] at htrue
    rw [hdl] at htrue
    simp only [List.length_append, List.length_cons, List.length_nil] at htrue
    omega
  · have hrw : create_packet t payload = create_packet t payload ++ [] := by simp
    rw [hrw, getPackets_create dt t payload [] 0 h2]
    have hnil : Stream.getPackets ⟨dt, [], if t = dt then 0 + 1 else 0⟩ =
        Except.ok ([], ⟨dt, [], if t = dt then 0 + 1 else 0⟩) :=
      drainAux_nil _ rfl _
    rw [hnil]

/-- Witness for C5: a debug packet with a one-byte payload;
without its final byte no packet is available, complete it yields
exactly one packet. -/
theorem has_packet_iff_complete_witness :
    (hasPacket [0, 2, 43] = true ↔
      3 ≤ ([0, 2, 43] : List Nat).length ∧
        payloadLength [0, 2, 43] ≤ (([0, 2, 43] : List Nat).length : Int) - 3) ∧
    hasPacket (create_packet PacketType.DEBUG [49]).dropLast = false ∧
    Stream.getPackets ⟨PacketType.SEQUENCED_DATA, create_packet PacketType.DEBUG [49], 0⟩ =
      Except.ok ([⟨2, PacketType.DEBUG, [49]⟩],
        ⟨PacketType.SEQUENCED_DATA, [], 0⟩) := by
  have h := has_packet_iff_complete [0, 2, 43] PacketType.SEQUENCED_DATA
    PacketType.DEBUG [49] (by decide) (by decide)
  exact h

/-- C10: `Stream.clear` empties the buffer while leaving the processed
counter and the configured data type unchanged, so the derived
`next_sequence_number` is unaffected. -/
theorem stream_clear_preserves_processed (s : Stream) (sequence_number : Nat) :
    s.clear.buffer = [] ∧
    s.clear.processed = s.processed ∧
    s.clear.data_type = s.data_type ∧
    nextSequenceNumber sequence_number s.clear =
      nextSequenceNumber sequence_number s := by
  unfold Stream.clear nextSequenceNumber
  exact ⟨rfl, rfl, rfl, rfl⟩

/-- C4: `Server.authenticate` succeeds (returns `None`) iff username,
password and session all match; it returns `NOT_AUTHORIZED` exactly when
username or password differ, and `SESSION_NOT_AVAILABLE` exactly when
the credentials match but the session differs. -/
theorem server_authenticate_iff (sv : ServerState) (u p sess : List Nat) :
    (Server.authenticate sv u p sess = none ↔
      sv.username = u ∧ sv.password = p ∧ sv.session = sess) ∧
    (Server.authenticate sv u p sess = some LoginRejectCode.NOT_AUTHORIZED ↔
      sv.username ≠ u ∨ sv.password ≠ p) ∧
    (Server.authenticate sv u p sess = some LoginRejectCode.SESSION_NOT_AVAILABLE ↔
      sv.username = u ∧ sv.password = p ∧ sv.session ≠ sess) := by
  unfold Server.authenticate
  by_cases h1 : sv.username = u ∧ sv.password = p
  · rw [if_pos h1]
    by_cases h2 : sv.session = sess
    · rw [if_pos h2]
      refine ⟨?_, ?_, ?_⟩ <;> simp [h1.1, h1.2, h2]
    · rw [if_neg h2]
      refine ⟨?_, ?_, ?_⟩ <;> simp [h1.1, h1.2, h2]
  · rw [if_neg h1]
    refine ⟨?_, ?_, ?_⟩ <;> simp <;> tauto

/-- C3 (amended): when the sequence-number field parses (else the
server raises before replying) and authentication succeeds, the
server's reply is a `LoginAccepted` packet built from the *client's
requested* session and sequence number — not from the server's own
fields (though the session coincides with the server's, because
authentication requires the match).  The original claim that the reply
carries the server's current sequence number is refuted by the
counterexample below. -/
theorem login_accept_echoes_request (sv : ServerState) (req : LoginRequest)
    (m : Nat) (hm : pyInt? req.requested_sequence_number = some m)
    (h : Server.authenticate sv (pyStrip req.username) (pyStrip req.password)
      (pyStrip req.requested_session) = none) :
    Server.on_login_request sv req =
      Except.ok (PacketType.LOGIN_ACCEPTED,
       (LoginAccepted.new (pyStrip req.requested_session) m).to_bytes) ∧
    pyStrip req.requested_session = sv.session := by
  constructor
  · unfold Server.on_login_request
    dsimp only
    rw [hm, h]
  · unfold Server.authenticate at h
    by_cases h1 : sv.username = pyStrip req.username ∧
        sv.password = pyStrip req.password
    · rw [if_pos h1] at h
      by_cases h2 : sv.session = pyStrip req.requested_session
      · exact h2.symm
      · rw [if_neg h2] at h
        exact absurd h (by simp)
    · rw [if_neg h1] at h
      exact absurd h (by simp)

/-- Witness for C3 (amended): server `a`/`b` with session `c` and
sequence number 5; the accepted reply echoes the request's session `c`
and requested sequence number 2. -/
theorem login_accept_echoes_request_witness :
    Server.on_login_request ⟨[97], [98], [99], 5⟩
      (LoginRequest.new [97] [98] [99] 2) =
      Except.ok (PacketType.LOGIN_ACCEPTED, (LoginAccepted.new [99] 2).to_bytes) ∧
    ([99] : List Nat) = [99] := by
  have h := login_accept_echoes_request ⟨[97], [98], [99], 5⟩
    (LoginRequest.new [97] [98] [99] 2) 2 (by decide) (by decide)
  exact ⟨h.1, rfl⟩

/-- Counterexample to C3 as stated: the spec's own scenario.  The server
has session `""` and `sequence_number = 1`; the client requests session
`""` with sequence number 0; authentication succeeds, but the
`LoginAccepted` reply carries sequence number 0 (the request's), not the
server's 1. -/
theorem login_accept_echoes_request_cex :
    Server.on_login_request
        ⟨[116, 101, 115, 116], [112, 97, 115, 115, 119, 111, 114, 100], [], 1⟩
        (LoginRequest.new [116, 101, 115, 116]
          [112, 97, 115, 115, 119, 111, 114, 100] [] 0) =
      Except.ok (PacketType.LOGIN_ACCEPTED, (LoginAccepted.new [] 0).to_bytes) ∧
    pyInt ((LoginAccepted.new [] 0).to_bytes.drop 10) = 0 ∧
    (⟨[116, 101, 115, 116], [112, 97, 115, 115, 119, 111, 114, 100], [], 1⟩ :
      ServerState).sequence_number = 1 :=
  ⟨rfl, rfl, rfl⟩

/-- C7 (amended): for every stream state whose front header declares
`packet_length ≥ 1`, a successful extraction consumes exactly the 3-byte
header plus the payload — the old buffer is the consumed prefix followed
by the residue — and a `None` result leaves the state untouched.  The
original claim also covers `packet_length = 0`, where the code removes
only 2 bytes and leaves the stale type byte in the buffer — see the
counterexample. -/
theorem extraction_well_formed (s : Stream) :
    (∀ (p : Packet) (s' : Stream), s.getPacket = Except.ok (some p, s') →
      1 ≤ headerLength s.buffer →
      s.buffer = s.buffer.take 3 ++ p.payload ++ s'.buffer ∧
      s'.buffer = s.buffer.drop (3 + p.payload.length) ∧
      3 + p.payload.length ≤ s.buffer.length) ∧
    (∀ s' : Stream, s.getPacket = Except.ok (none, s') → s' = s) := by
  constructor
  · intro p s' h hl1
    obtain ⟨hh, -, hp, hs⟩ := getPacket_some_inv s p s' h
    obtain ⟨h3, hoff, hpl⟩ := hasPacket_le s.buffer hh
    have hplen : p.payload.length = headerLength s.buffer - 1 := by
      rw [hp]
      simp only [List.length_take, List.length_drop]
      omega
    have harith : 3 + p.payload.length = headerLength s.buffer + 2 := by
      omega
    have hbuf' : s'.buffer = s.buffer.drop (headerLength s.buffer + 2) := by
      rw [hs]
    refine ⟨?_, by rw [harith, hbuf'], by omega⟩
    have htake : s.buffer.take 3 ++ p.payload =
        s.buffer.take (headerLength s.buffer + 2) := by
      conv_rhs => rw [show headerLength s.buffer + 2 = 3 + (headerLength s.buffer - 1) by omega]
      rw [List.take_add]
      congr 1
      rw [hp]
    rw [htake, hbuf']
    exact (List.take_append_drop _ _).symm
  · intro s' h
    exact (getPacket_none_inv s s' h).1

/-- Witness for C7 on a complete one-byte sequenced-data packet:
extraction consumes exactly header plus payload. -/
theorem extraction_well_formed_witness :
    ([0, 2, 83, 65] : List Nat) =
      ([0, 2, 83, 65] : List Nat).take 3 ++ [65] ++ [] ∧
    ([] : List Nat) = ([0, 2, 83, 65] : List Nat).drop (3 + 1) ∧
    3 + 1 ≤ ([0, 2, 83, 65] : List Nat).length := by
  have h := (extraction_well_formed ⟨PacketType.SEQUENCED_DATA, [0, 2, 83, 65], 0⟩).1
    ⟨2, PacketType.SEQUENCED_DATA, [65]⟩ ⟨PacketType.SEQUENCED_DATA, [], 1⟩
    rfl (by decide)
  exact h

/-- Counterexample to C7 as stated: a header declaring
`packet_length = 0` (bytes `00 00 53`).  `get_packet` extracts an empty
packet but removes only 2 bytes, leaving the stale type byte `S` as a
malformed residue (and even counts the packet against the processed
counter): the residue `[83]` is not the buffer minus a 3-byte header
plus empty payload. -/
theorem extraction_well_formed_cex :
    (⟨PacketType.SEQUENCED_DATA, [0, 0, 83], 0⟩ : Stream).getPacket =
      Except.ok (some ⟨0, PacketType.SEQUENCED_DATA, []⟩,
        ⟨PacketType.SEQUENCED_DATA, [83], 1⟩) ∧
    ([0, 0, 83] : List Nat) ≠ ([0, 0, 83] : List Nat).take 3 ++ [] ++ [83] :=
  ⟨rfl, by decide⟩

/-- C8 (amended): `get_packet` raises exactly when a complete packet is
available whose type byte is outside the `PacketType` enumeration;
absence of a complete packet is always signaled as `None` (and an empty
drain) without an error.  The original claim that the framing layer
never raises is refuted by the counterexample below. -/
theorem framing_error_iff (s : Stream) :
    (s.getPacket = Except.error () ↔
      hasPacket s.buffer = true ∧
      PacketType.ofByte? (headerType s.buffer) = none) ∧
    (hasPacket s.buffer = false →
      s.getPacket = Except.ok (none, s) ∧
      s.getPackets = Except.ok ([], s)) := by
  constructor
  · constructor
    · intro h
      by_cases hh : hasPacket s.buffer = true
      · cases ht : PacketType.ofByte? (headerType s.buffer) with
        | none => exact ⟨hh, rfl⟩
        | some t =>
            rw [getPacket_of_some s t hh ht] at h
            exact absurd h (by simp)
      · rw [getPacket_of_not_hasPacket s (by simpa using hh)] at h
        exact absurd h (by simp)
    · intro ⟨hh, ht⟩
      exact getPacket_of_error s hh ht
  · intro h
    have h1 := getPacket_of_not_hasPacket s h
    exact ⟨h1, getPackets_of_none s s h1⟩

/-- Witness for C8 on an incomplete buffer (header promises a 4-byte
payload that has not arrived): no error, nothing consumed. -/
theorem framing_error_iff_witness :
    (⟨PacketType.UNSEQUENCED_DATA, [0, 5, 83], 0⟩ : Stream).getPacket =
      Except.ok (none, ⟨PacketType.UNSEQUENCED_DATA, [0, 5, 83], 0⟩) ∧
    (⟨PacketType.UNSEQUENCED_DATA, [0, 5, 83], 0⟩ : Stream).getPackets =
      Except.ok ([], ⟨PacketType.UNSEQUENCED_DATA, [0, 5, 83], 0⟩) := by
  have h := (framing_error_iff ⟨PacketType.UNSEQUENCED_DATA, [0, 5, 83], 0⟩).2 rfl
  exact h

/-- Counterexample to C8 as stated: a complete packet whose type byte 63
(`?`) is not in the enumeration makes `get_packets` raise `ValueError`
inside the framing layer, rather than returning packets or signaling
absence of data. -/
theorem framing_error_iff_cex :
    hasPacket [0, 1, 63] = true ∧
    (⟨PacketType.UNSEQUENCED_DATA, [0, 1, 63], 0⟩ : Stream).getPackets =
      Except.error () :=
  ⟨rfl, rfl⟩

/-- C6 (amended): round-trip of the login payload codecs.  For every
username (at most 6 bytes), password (at most 10), session (at most 10)
without leading or trailing *whitespace* (Python's `strip()` removes all
whitespace, not only spaces — see the counterexample for the original
"no leading or trailing spaces" hypothesis), and non-negative sequence
number of at most 20 decimal digits: encoding with `new` and decoding by
trimming the padding / parsing the integer reproduces the original
values; the one-byte `LoginRejected` code round-trips through its enum
lookup. -/
theorem login_codec_roundtrip (u p sess : List Nat) (n : Nat)
    (hu : u.length ≤ 6) (hul : lstrip u = u) (hur : rstrip u = u)
    (hp : p.length ≤ 10) (hpl : lstrip p = p) (hpr : rstrip p = p)
    (hs : sess.length ≤ 10) (hsl : lstrip sess = sess) (hsr : rstrip sess = sess)
    (hn : n < 10 ^ 20) :
    pyStrip (LoginRequest.new u p sess n).username = u ∧
    pyStrip (LoginRequest.new u p sess n).password = p ∧
    pyStrip (LoginRequest.new u p sess n).requested_session = sess ∧
    pyInt (LoginRequest.new u p sess n).requested_sequence_number = n ∧
    pyStrip (LoginAccepted.new sess n).session = sess ∧
    pyInt (LoginAccepted.new sess n).sequence_number = n ∧
    (∀ c : LoginRejectCode, LoginRejectCode.ofByte? c.value = some c) := by
  refine ⟨?_, ?_, ?_, ?_, ?_, ?_, ?_⟩
  · show pyStrip (ljust u 6) = u
    rw [pyStrip_ljust]
    exact pyStrip_of_stripped u hul hur
  · show pyStrip (ljust p 10) = p
    rw [pyStrip_ljust]
    exact pyStrip_of_stripped p hpl hpr
  · show pyStrip (ljust sess 10) = sess
    rw [pyStrip_ljust]
    exact pyStrip_of_stripped sess hsl hsr
  · exact pyInt_rjust_pyStr n 20
  · show pyStrip (ljust sess 10) = sess
    rw [pyStrip_ljust]
    exact pyStrip_of_stripped sess hsl hsr
  · exact pyInt_rjust_pyStr n 20
  · intro c
    cases c <;> rfl

/-- Witness for C6 at username `u`, password `p`, session `s`,
sequence number 42. -/
theorem login_codec_roundtrip_witness :
    pyStrip (LoginRequest.new [117] [112] [115] 42).username = [117] ∧
    pyStrip (LoginRequest.new [117] [112] [115] 42).password = [112] ∧
    pyStrip (LoginRequest.new [117] [112] [115] 42).requested_session = [115] ∧
    pyInt (LoginRequest.new [117] [112] [115] 42).requested_sequence_number = 42 ∧
    pyStrip (LoginAccepted.new [115] 42).session = [115] ∧
    pyInt (LoginAccepted.new [115] 42).sequence_number = 42 ∧
    LoginRejectCode.ofByte? LoginRejectCode.NOT_AUTHORIZED.value =
      some LoginRejectCode.NOT_AUTHORIZED := by
  have h := login_codec_roundtrip [117] [112] [115] 42
    (by decide) rfl rfl (by decide) rfl rfl (by decide) rfl rfl (by decide)
  exact ⟨h.1, h.2.1, h.2.2.1, h.2.2.2.1, h.2.2.2.2.1, h.2.2.2.2.2.1,
    h.2.2.2.2.2.2 LoginRejectCode.NOT_AUTHORIZED⟩

/-- Counterexample to C6 as stated: the username `a\t` (bytes 97, 9) has
no leading or trailing *space* and fits in 6 bytes, yet Python's
`strip()` on decode also removes the trailing tab, so the round-trip
returns `a` instead of `a\t`. -/
theorem login_codec_roundtrip_cex :
    ([97, 9] : List Nat).length ≤ 6 ∧
    ([97, 9] : List Nat).headD 0 ≠ spaceByte ∧
    ([97, 9] : List Nat).getLastD 0 ≠ spaceByte ∧
    pyStrip (LoginRequest.new [97, 9] [] [] 0).username ≠ [97, 9] := by
  decide

/-- C9 (amended): the client's handling of the single reply packet to
its login request.  On `LoginAccepted` it adopts the reply's raw 10-byte
session field and the parsed sequence number and returns success, but
does *not* start the heartbeat task (`Client.start` leaves its
`start_keep_alive` call commented out — see the counterexample); on
`LoginRejected` with a recognized code byte it fails with
`LoginRejectedError` carrying that code; on any other packet type it
fails with `ValueError`. -/
theorem client_login_outcome (st : ClientState) (sess pl2 : List Nat)
    (n l1 l2 l3 : Nat) (hs : sess.length ≤ 10) (hn : (pyStr n).length ≤ 20) :
    Client.login_reply st
        ⟨l1, PacketType.LOGIN_ACCEPTED, (LoginAccepted.new sess n).to_bytes⟩ =
      Except.ok ⟨ljust sess 10, n, st.keep_alive_started⟩ ∧
    (∀ c : LoginRejectCode,
      Client.login_reply st ⟨l2, PacketType.LOGIN_REJECTED, c.value :: pl2⟩ =
        Except.error (ClientError.loginRejected c)) ∧
    (∀ t : PacketType, t ≠ PacketType.LOGIN_ACCEPTED →
      t ≠ PacketType.LOGIN_REJECTED →
      Client.login_reply st ⟨l3, t, pl2⟩ = Except.error ClientError.valueError) := by
  refine ⟨?_, ?_, ?_⟩
  · unfold Client.login_reply
    rw [if_pos rfl]
    unfold LoginAccepted.from_buffer_copy LoginAccepted.to_bytes LoginAccepted.new
    dsimp only
    have hlenl := ljust_length sess 10 hs
    have hlenr := rjust_length (pyStr n) 20 hn
    have hsess : (ljust sess 10 ++ rjust (pyStr n) 20).take 10 = ljust sess 10 := by
      rw [List.take_append_of_le_length (by omega)]
      exact List.take_of_length_le (by omega)
    have hseq : ((ljust sess 10 ++ rjust (pyStr n) 20).drop 10).take 20 =
        rjust (pyStr n) 20 := by
      rw [List.drop_append_of_le_length (by omega)]
      rw [List.drop_of_length_le (by omega)]
      rw [List.nil_append]
      exact List.take_of_length_le (by omega)
    rw [hsess, hseq, pyInt_rjust_pyStr]
  · intro c
    unfold Client.login_reply
    dsimp only
    rw [if_neg (by decide), if_pos rfl]
    have hc : LoginRejectCode.ofByte? ((c.value :: pl2).getD 0 0) = some c := by
      cases c <;> rfl
    rw [hc]
  · intro t ht1 ht2
    unfold Client.login_reply
    rw [if_neg (by simpa using ht1), if_neg (by simpa using ht2)]

/-- Witness for C9 at session `t`, sequence number 7, and concrete
rejected/other replies. -/
theorem client_login_outcome_witness :
    Client.login_reply ⟨[], 1, false⟩
        ⟨0, PacketType.LOGIN_ACCEPTED, (LoginAccepted.new [116] 7).to_bytes⟩ =
      Except.ok ⟨ljust [116] 10, 7, false⟩ ∧
    Client.login_reply ⟨[], 1, false⟩
        ⟨0, PacketType.LOGIN_REJECTED,
          LoginRejectCode.SESSION_NOT_AVAILABLE.value :: []⟩ =
      Except.error (ClientError.loginRejected LoginRejectCode.SESSION_NOT_AVAILABLE) ∧
    Client.login_reply ⟨[], 1, false⟩ ⟨0, PacketType.DEBUG, []⟩ =
      Except.error ClientError.valueError := by
  have h := client_login_outcome ⟨[], 1, false⟩ [116] [] 7 0 0 0
    (by decide) (by decide)
  exact ⟨h.1, h.2.1 LoginRejectCode.SESSION_NOT_AVAILABLE,
    h.2.2 PacketType.DEBUG (by decide) (by decide)⟩

/-- Counterexample to C9 as stated: after a successful `LoginAccepted`
reply the client's keep-alive task flag is still `false` — the claim
says the heartbeat task is started, but `Client.start` never calls
`start_keep_alive` (the call is commented out in `client.py`). -/
theorem client_login_outcome_cex :
    Client.login_reply ⟨[], 1, false⟩
        ⟨31, PacketType.LOGIN_ACCEPTED, (LoginAccepted.new [] 7).to_bytes⟩ =
      Except.ok ⟨List.replicate 10 32, 7, false⟩ ∧
    (⟨List.replicate 10 32, 7, false⟩ : ClientState).keep_alive_started = false :=
  ⟨rfl, rfl⟩

end Soupbintcp
